import Mathlib

/-!
Shallow embedding of the canvas synchronization server
(`src/server/sync_server.py`) and proofs about its core operations:
the merge-upsert reducer `merge_event_to_canvas`, the mutation ingest
handler `push_sync_event`, the `full_sync` / `get_full_data` /
`reset_data` endpoints, and the SSE `broadcast` fan-out loop.

Modelling conventions:
* Python dict canvas objects (`ImageExportData`) are modelled as a
  record with an optional string `id` (absent key = `none`) and an
  opaque attribute list standing for the remaining payload fields.
* The Python truthiness test `if not event_id` on `event_data.get("id")`
  is `isFalsyId`: true exactly for an absent id or the empty string.
* The module-level mutable globals `sequence_id` and `canvas_data` are
  an explicit `ServerState` record threaded through the handlers.
* Handlers return their new state, the list of envelopes destined for
  broadcast, and the HTTP response payload, instead of mutating globals
  and scheduling a broadcast task.
* Subscriber queues (`asyncio.Queue`) hold the envelope itself in place
  of its JSON serialization; a queue whose `put` raises is modelled by
  the `broken` constructor, and `queuePut` returns `Except` to model
  the raised exception that `broadcast` catches.
-/

namespace SyncServer

/-- One canvas object (`ImageExportData` dict): an optional string id
(the `"id"` key; `none` when the key is absent) plus opaque remaining
attributes. -/
structure CanvasObject where
  id : Option String
  attrs : List (String × String)
deriving DecidableEq, Repr

/-- Python truthiness of `event_data.get("id")`: falsy when the key is
absent (`None`) or the value is the empty string. -/
def isFalsyId : Option String → Bool
  | none => true
  | some s => s == ""

/-- Embeds `merge_event_to_canvas` (sync_server.py lines 67-93): if the id is
falsy, log and return unchanged; otherwise find the first index holding
that id and replace it in place, or append when no index holds it.
`List.findIdx` returns the length when nothing matches, mirroring the
`found_index = -1` sentinel. -/
def merge_event_to_canvas (canvas : List CanvasObject) (event_data : CanvasObject) :
    List CanvasObject :=
  if isFalsyId event_data.id then canvas
  else
    let found_index := canvas.findIdx (fun item => item.id == event_data.id)
    if found_index < canvas.length then
      canvas.set found_index event_data
    else
      canvas ++ [event_data]

/-- One item of a `SyncPushRequest` (`SyncEventItem` model): an event
type tag and the object payload. -/
structure SyncEventItem where
  event_type : String
  event_data : CanvasObject
deriving DecidableEq, Repr

/-- The broadcast envelope built for each processed item (the dict
pushed onto `broadcast_events` in `push_sync_event`). -/
structure EventEnvelope where
  sequence_id : Nat
  event_type : String
  event_data : CanvasObject
deriving DecidableEq, Repr

/-- The server's mutable globals `sequence_id` and `canvas_data`. -/
structure ServerState where
  sequence_id : Nat
  canvas_data : List CanvasObject
deriving DecidableEq, Repr

/-- The globals at process start: counter `0`, empty canvas. -/
def initialState : ServerState := ⟨0, []⟩

/-- Everything `push_sync_event` produces: the updated globals, the
`broadcast_events` list handed to the deferred `broadcast_all` task,
and the response body `{"sequence_id": ...}`. -/
structure PushResult where
  state : ServerState
  broadcast_events : List EventEnvelope
  response : Nat
deriving DecidableEq, Repr

/-- Body of the `for event_item in request.events` loop in
`push_sync_event` (lines 167-179): increment the counter, merge the
payload into the canvas, append the envelope. -/
def pushStep (acc : ServerState × List EventEnvelope) (item : SyncEventItem) :
    ServerState × List EventEnvelope :=
  let seq := acc.1.sequence_id + 1
  let canvas := merge_event_to_canvas acc.1.canvas_data item.event_data
  (⟨seq, canvas⟩, acc.2 ++ [⟨seq, item.event_type, item.event_data⟩])

/-- Embeds `push_sync_event` (lines 153-186): fold the loop body over the
request's events, then answer with the final counter value. The
broadcast of `broadcast_events` is deferred to a separate task in the
source (`asyncio.create_task`), so the envelopes are returned rather
than delivered here. -/
def push_sync_event (st : ServerState) (events : List SyncEventItem) : PushResult :=
  let r := events.foldl pushStep (st, [])
  ⟨r.1, r.2, r.1.sequence_id⟩

/-- Request body of the full-sync endpoint (`FullSyncRequest` model). -/
structure FullSyncRequest where
  clientId : String
  canvasJSON : List CanvasObject
deriving DecidableEq, Repr

/-- Result of `full_sync`: new globals, envelopes broadcast (none in
the source), and the `success` flag of the response. -/
structure FullSyncResult where
  state : ServerState
  broadcast_events : List EventEnvelope
  success : Bool
deriving DecidableEq, Repr

/-- Embeds `full_sync` (lines 195-204): install `request.canvasJSON` as the
canvas verbatim, leave the counter alone, broadcast nothing, answer
`{"success": true}`. -/
def full_sync (st : ServerState) (request : FullSyncRequest) : FullSyncResult :=
  ⟨⟨st.sequence_id, request.canvasJSON⟩, [], true⟩

/-- Embeds `get_full_data` (lines 207-215): return the canvas and the current
counter, unchanged state. -/
def get_full_data (st : ServerState) : List CanvasObject × Nat :=
  (st.canvas_data, st.sequence_id)

/-- Embeds `reset_data` (lines 229-238): zero the counter, empty the canvas,
answer `{"success": true}`. -/
def reset_data (_st : ServerState) : ServerState × Bool :=
  (⟨0, []⟩, true)

/-! ### Broadcast hub -/

/-- A subscriber's delivery queue: either a live `asyncio.Queue`
holding the envelopes enqueued so far, or one whose `put` raises. -/
inductive QueueState where
  | active (messages : List EventEnvelope)
  | broken
deriving DecidableEq, Repr

/-- Embeds `await queue.put(message)`: succeeds on a live queue, raises
(returns `Except.error`) on a broken one. -/
def queuePut (q : QueueState) (message : EventEnvelope) : Except String QueueState :=
  match q with
  | .active ms => .ok (.active (ms ++ [message]))
  | .broken => .error "enqueue failed"

/-- One entry of the `sse_clients` registry: connection id plus its
delivery queue. -/
structure Subscriber where
  client_id : String
  queue : QueueState
deriving DecidableEq, Repr

/-- One iteration of the `for client_id, queue in list(sse_clients.items())`
loop in `broadcast`: try to enqueue, on success bump
`broadcast_count`, on failure log (the `except` branch only prints)
and keep the client as is. -/
def broadcastStep (event : EventEnvelope) (acc : List Subscriber × Nat)
    (c : Subscriber) : List Subscriber × Nat :=
  match queuePut c.queue event with
  | .ok q => (acc.1 ++ [⟨c.client_id, q⟩], acc.2 + 1)
  | .error _ => (acc.1 ++ [c], acc.2)

/-- Embeds `broadcast` (lines 97-109): iterate over the registered clients,
try to enqueue the envelope on each, catch and log any failure and
carry on; count successful deliveries. The registry itself is never
modified: a client whose `put` raised is kept. -/
def broadcast (clients : List Subscriber) (event : EventEnvelope) :
    List Subscriber × Nat :=
  clients.foldl (broadcastStep event) ([], 0)

/-- Embeds `broadcast_all` (lines 189-192): broadcast each envelope in order. -/
def broadcast_all (clients : List Subscriber) (events : List EventEnvelope) :
    List Subscriber :=
  events.foldl (fun cs e => (broadcast cs e).1) clients

/-! ### Operations for the reachability invariant -/

/-- The state-mutating endpoints, as one operation type. -/
inductive Op where
  | pushOp (events : List SyncEventItem)
  | fullSyncOp (request : FullSyncRequest)
  | resetOp
deriving Repr

/-- Effect of one endpoint call on the globals. -/
def applyOp (st : ServerState) (op : Op) : ServerState :=
  match op with
  | .pushOp events => (push_sync_event st events).state
  | .fullSyncOp request => (full_sync st request).state
  | .resetOp => (reset_data st).1

/-- Precondition on an operation: a full-sync input carries pairwise
distinct ids (the spec assumes ids unique within the input). -/
def OpDistinctIds : Op → Prop
  | .fullSyncOp request => (request.canvasJSON.map CanvasObject.id).Nodup
  | _ => True

/-- The identity invariant: for every non-empty id, at most one canvas
object carries it. -/
def AtMostOnePerId (canvas : List CanvasObject) : Prop :=
  ∀ oid : Option String, isFalsyId oid = false →
    canvas.countP (fun o => o.id == oid) ≤ 1

/-! ### Helper: structural form of the merge -/

/-- Structural recursion equivalent of the find-then-set loop: replace
the first object whose id matches, else append at the end. -/
def replaceFirst (canvas : List CanvasObject) (e : CanvasObject) : List CanvasObject :=
  match canvas with
  | [] => [e]
  | o :: rest => if o.id == e.id then e :: rest else o :: replaceFirst rest e

theorem merge_eq_replaceFirst (canvas : List CanvasObject) (e : CanvasObject)
    (h : isFalsyId e.id = false) :
    merge_event_to_canvas canvas e = replaceFirst canvas e := by
  induction canvas with
  | nil => simp [merge_event_to_canvas, h, replaceFirst]
  | cons o rest ih =>
    by_cases hm : (o.id == e.id) = true
    · simp [merge_event_to_canvas, h, replaceFirst, List.findIdx_cons, hm]
    · rw [Bool.not_eq_true] at hm
      simp only [merge_event_to_canvas, h, Bool.false_eq_true, if_false,
        List.findIdx_cons, hm, cond_false, List.length_cons,
        Nat.add_lt_add_iff_right, replaceFirst] at ih ⊢
      rcases Nat.lt_or_ge (rest.findIdx (fun item => item.id == e.id)) rest.length with hf | hf
      · rw [if_pos hf] at ih
        rw [if_pos hf, List.set_cons_succ, ih]
      · rw [if_neg (Nat.not_lt.mpr hf)] at ih
        rw [if_neg (Nat.not_lt.mpr hf), ← ih]
        simp

theorem replaceFirst_of_not_mem (canvas : List CanvasObject) (e : CanvasObject)
    (h : ∀ o ∈ canvas, o.id ≠ e.id) : replaceFirst canvas e = canvas ++ [e] := by
  induction canvas with
  | nil => rfl
  | cons o rest ih =>
    have ho : (o.id == e.id) = false := by
      rw [beq_eq_false_iff_ne]
      exact h o (List.mem_cons_self o rest)
    simp [replaceFirst, ho, ih (fun a ha => h a (List.mem_cons_of_mem o ha))]

theorem replaceFirst_first_match (pre post : List CanvasObject) (x e : CanvasObject)
    (hx : x.id = e.id) (hpre : ∀ o ∈ pre, o.id ≠ e.id) :
    replaceFirst (pre ++ x :: post) e = pre ++ e :: post := by
  induction pre with
  | nil =>
    have hm : (x.id == e.id) = true := by rw [beq_iff_eq]; exact hx
    simp [replaceFirst, hm]
  | cons o pre' ih =>
    have ho : (o.id == e.id) = false := by
      rw [beq_eq_false_iff_ne]
      exact hpre o (List.mem_cons_self o pre')
    simp [replaceFirst, ho, ih (fun a ha => hpre a (List.mem_cons_of_mem o ha))]

/-- Every list with an element matching a target id splits at the first
such element. -/
theorem first_match_decomp (canvas : List CanvasObject) (targetId : Option String)
    (h : ∃ o ∈ canvas, o.id = targetId) :
    ∃ pre x post, canvas = pre ++ x :: post ∧ x.id = targetId ∧
      ∀ o ∈ pre, o.id ≠ targetId := by
  induction canvas with
  | nil => simp at h
  | cons o rest ih =>
    by_cases ho : o.id = targetId
    · exact ⟨[], o, rest, rfl, ho, by simp⟩
    · obtain ⟨x, hx, hxid⟩ := h
      rcases List.mem_cons.mp hx with rfl | hxmem
      · exact absurd hxid ho
      · obtain ⟨pre, y, post, hdecomp, hyid, hpre⟩ := ih ⟨x, hxmem, hxid⟩
        refine ⟨o :: pre, y, post, by rw [hdecomp]; rfl, hyid, ?_⟩
        intro a ha
        rcases List.mem_cons.mp ha with rfl | hamem
        · exact ho
        · exact hpre a hamem

/-- C1: for every canvas state and mutation object with a non-empty id,
`merge_event_to_canvas` replaces the (first) existing object with that
id in place — the prefix before it and the suffix after it are
untouched — and appends the object at the end when no object carries
that id; nothing else is moved, added, or removed. -/
theorem merge_upsert_in_place (canvas : List CanvasObject) (e : CanvasObject)
    (h : isFalsyId e.id = false) :
    ((∃ o ∈ canvas, o.id = e.id) →
      ∃ pre x post, canvas = pre ++ x :: post ∧ x.id = e.id ∧
        (∀ o ∈ pre, o.id ≠ e.id) ∧
        merge_event_to_canvas canvas e = pre ++ e :: post)
    ∧ ((∀ o ∈ canvas, o.id ≠ e.id) →
        merge_event_to_canvas canvas e = canvas ++ [e]) := by
  constructor
  · intro hex
    obtain ⟨pre, x, post, hdecomp, hxid, hpre⟩ := first_match_decomp canvas e.id hex
    refine ⟨pre, x, post, hdecomp, hxid, hpre, ?_⟩
    subst hdecomp
    rw [merge_eq_replaceFirst _ _ h, replaceFirst_first_match pre post x e hxid hpre]
  · intro hno
    rw [merge_eq_replaceFirst _ _ h, replaceFirst_of_not_mem canvas e hno]

/-- Witness for C1: merging an object with the fresh id `b2` into a
one-object canvas appends it at the end. -/
theorem merge_upsert_in_place_witness :
    merge_event_to_canvas [⟨some "a1", [("x", "1")]⟩] ⟨some "b2", []⟩
      = [⟨some "a1", [("x", "1")]⟩, ⟨some "b2", []⟩] :=
  (merge_upsert_in_place [⟨some "a1", [("x", "1")]⟩] ⟨some "b2", []⟩
    (by decide)).2 (by decide)

theorem replaceFirst_idem (canvas : List CanvasObject) (e : CanvasObject) :
    replaceFirst (replaceFirst canvas e) e = replaceFirst canvas e := by
  induction canvas with
  | nil => simp [replaceFirst]
  | cons o rest ih =>
    by_cases hm : (o.id == e.id) = true
    · simp [replaceFirst, hm]
    · rw [Bool.not_eq_true] at hm
      simp [replaceFirst, hm, ih]

theorem filter_replaceFirst (canvas : List CanvasObject) (e : CanvasObject)
    (h : canvas.countP (fun o => o.id == e.id) ≤ 1) :
    (replaceFirst canvas e).filter (fun o => o.id == e.id) = [e] := by
  induction canvas with
  | nil => simp [replaceFirst]
  | cons o rest ih =>
    by_cases hm : (o.id == e.id) = true
    · have hrest : rest.countP (fun o => o.id == e.id) = 0 := by
        rw [List.countP_cons_of_pos _ rest hm] at h
        omega
      have hrest' : rest.filter (fun o => o.id == e.id) = [] := by
        rw [← List.length_eq_zero, ← List.countP_eq_length_filter]
        exact hrest
      simp [replaceFirst, hm, List.filter_cons, hrest']
    · rw [Bool.not_eq_true] at hm
      have hle : rest.countP (fun o => o.id == e.id) ≤ 1 := by
        rw [List.countP_cons_of_neg _ rest (by simp [hm])] at h
        exact h
      simp [replaceFirst, hm, List.filter_cons, ih hle]

/-- C5: merging the same object twice is the same as merging it once,
for every canvas state; and on a canvas satisfying the identity
invariant, one merge of an object with a non-empty id leaves exactly
one object with that id, holding exactly that payload. -/
theorem merge_idempotent_per_id (canvas : List CanvasObject) (e : CanvasObject) :
    merge_event_to_canvas (merge_event_to_canvas canvas e) e
      = merge_event_to_canvas canvas e
    ∧ (AtMostOnePerId canvas → isFalsyId e.id = false →
        (merge_event_to_canvas canvas e).filter (fun o => o.id == e.id) = [e]) := by
  constructor
  · by_cases h : isFalsyId e.id = true
    · simp [merge_event_to_canvas, h]
    · rw [Bool.not_eq_true] at h
      rw [merge_eq_replaceFirst _ _ h, merge_eq_replaceFirst _ _ h, replaceFirst_idem]
  · intro hinv h
    rw [merge_eq_replaceFirst _ _ h]
    exact filter_replaceFirst canvas e (hinv e.id h)

/-- Witness for C5: merging `{a1, x:1}` into the one-object canvas
`[{b2}]` leaves exactly one object with id `a1`, holding that payload. -/
theorem merge_idempotent_per_id_witness :
    (merge_event_to_canvas [⟨some "b2", []⟩] ⟨some "a1", [("x", "1")]⟩).filter
        (fun o => o.id == some "a1") = [⟨some "a1", [("x", "1")]⟩] :=
  (merge_idempotent_per_id [⟨some "b2", []⟩] ⟨some "a1", [("x", "1")]⟩).2
    (fun oid _ => le_trans (List.countP_le_length _) (by simp))
    (by decide)

/-! ### The ingest loop -/

/-- The loop of `push_sync_event`, fully characterised: the envelopes
appended by the loop carry the consecutive sequence ids following the
counter's starting value, in list order, each paired with its item's
type and payload, and the counter finishes at start plus item count. -/
theorem pushFold_spec (events : List SyncEventItem) :
    ∀ st : ServerState, ∀ acc : List EventEnvelope,
      ((events.foldl pushStep (st, acc)).2.map EventEnvelope.sequence_id
          = acc.map EventEnvelope.sequence_id
            ++ List.range' (st.sequence_id + 1) events.length)
      ∧ ((events.foldl pushStep (st, acc)).2.map
            (fun env => (env.event_type, env.event_data))
          = acc.map (fun env => (env.event_type, env.event_data))
            ++ events.map (fun item => (item.event_type, item.event_data)))
      ∧ (events.foldl pushStep (st, acc)).1.sequence_id
          = st.sequence_id + events.length := by
  induction events with
  | nil =>
    intro st acc
    simp
  | cons e es ih =>
    intro st acc
    have hstep : pushStep (st, acc) e
        = (⟨st.sequence_id + 1, merge_event_to_canvas st.canvas_data e.event_data⟩,
           acc ++ [⟨st.sequence_id + 1, e.event_type, e.event_data⟩]) := rfl
    obtain ⟨h1, h2, h3⟩ :=
      ih ⟨st.sequence_id + 1, merge_event_to_canvas st.canvas_data e.event_data⟩
        (acc ++ [⟨st.sequence_id + 1, e.event_type, e.event_data⟩])
    refine ⟨?_, ?_, ?_⟩
    · rw [List.foldl_cons, hstep, h1]
      simp [List.range'_succ]
    · rw [List.foldl_cons, hstep, h2]
      simp
    · rw [List.foldl_cons, hstep, h3]
      simp
      omega

/-- C2: a push request with N items, starting from counter value k,
assigns the sequence ids k+1, …, k+N to its envelopes in list order
(each id used exactly once — the id list is duplicate-free), and the
response body carries exactly k+N. -/
theorem push_assigns_consecutive_ids (st : ServerState) (events : List SyncEventItem) :
    ((push_sync_event st events).broadcast_events.map EventEnvelope.sequence_id
        = List.range' (st.sequence_id + 1) events.length)
    ∧ ((push_sync_event st events).broadcast_events.map
        EventEnvelope.sequence_id).Nodup
    ∧ (push_sync_event st events).response = st.sequence_id + events.length := by
  obtain ⟨h1, -, h3⟩ := pushFold_spec events st []
  have hids : (push_sync_event st events).broadcast_events.map EventEnvelope.sequence_id
      = List.range' (st.sequence_id + 1) events.length := by
    simpa [push_sync_event] using h1
  refine ⟨hids, ?_, by simpa [push_sync_event] using h3⟩
  rw [hids]
  exact List.nodup_range' _ _

/-- C10: an id-less item still consumes a sequence id: for any request
with N items, the counter advances by exactly N and one envelope is
built for every item (carrying that item's type and payload), with no
condition on the items' ids. -/
theorem push_consumes_ids_for_idless_items (st : ServerState)
    (events : List SyncEventItem) :
    (push_sync_event st events).state.sequence_id = st.sequence_id + events.length
    ∧ (push_sync_event st events).broadcast_events.length = events.length
    ∧ (push_sync_event st events).broadcast_events.map
        (fun env => (env.event_type, env.event_data))
      = events.map (fun item => (item.event_type, item.event_data)) := by
  obtain ⟨h1, h2, h3⟩ := pushFold_spec events st []
  refine ⟨by simpa [push_sync_event] using h3, ?_, by simpa [push_sync_event] using h2⟩
  have := congrArg List.length h1
  simpa [push_sync_event, List.length_range'] using this

/-- C9: an item whose payload has no id (absent or empty string) is a
no-op on the canvas — `merge_event_to_canvas` returns the canvas
unchanged, so object count and every stored object are untouched — and
a push request still answers with its normal response. -/
theorem idless_merge_is_noop (st : ServerState) (events : List SyncEventItem)
    (e : CanvasObject) (h : isFalsyId e.id = true) :
    (∀ canvas : List CanvasObject, merge_event_to_canvas canvas e = canvas)
    ∧ (push_sync_event st events).response = st.sequence_id + events.length := by
  constructor
  · intro canvas
    simp [merge_event_to_canvas, h]
  · obtain ⟨-, -, h3⟩ := pushFold_spec events st []
    simpa [push_sync_event] using h3

/-- Witness for C9: an object with an absent id merges as a no-op into
a one-object canvas, and a one-item push of it from the initial state
still answers `sequence_id = 1`. -/
theorem idless_merge_is_noop_witness :
    merge_event_to_canvas [⟨some "a1", []⟩] ⟨none, [("x", "9")]⟩ = [⟨some "a1", []⟩]
    ∧ (push_sync_event initialState
        [⟨"client:change", ⟨none, [("x", "9")]⟩⟩]).response = 1 :=
  ⟨(idless_merge_is_noop initialState [⟨"client:change", ⟨none, [("x", "9")]⟩⟩]
      ⟨none, [("x", "9")]⟩ (by decide)).1 [⟨some "a1", []⟩],
   (idless_merge_is_noop initialState [⟨"client:change", ⟨none, [("x", "9")]⟩⟩]
      ⟨none, [("x", "9")]⟩ (by decide)).2⟩

/-- C6: after `reset_data` the canvas is empty and the counter is 0,
`get_full_data` then returns empty objects with sequence id 0, and the
first item of the next push is assigned sequence id 1. -/
theorem reset_then_empty_snapshot (st : ServerState) (e : SyncEventItem)
    (es : List SyncEventItem) :
    (reset_data st).1.canvas_data = []
    ∧ (reset_data st).1.sequence_id = 0
    ∧ (reset_data st).2 = true
    ∧ get_full_data (reset_data st).1 = ([], 0)
    ∧ ((push_sync_event (reset_data st).1 (e :: es)).broadcast_events.map
          EventEnvelope.sequence_id).head? = some 1 := by
  refine ⟨rfl, rfl, rfl, rfl, ?_⟩
  obtain ⟨h1, -, -⟩ := pushFold_spec (e :: es) ⟨0, []⟩ []
  have hids : (push_sync_event (reset_data st).1 (e :: es)).broadcast_events.map
      EventEnvelope.sequence_id = List.range' 1 (es.length + 1) := by
    simpa [push_sync_event, reset_data] using h1
  rw [hids, List.range'_succ]
  rfl

/-- C7: `full_sync` installs the request's object list verbatim as the
canvas, leaves the sequence counter unchanged, broadcasts no envelope
(fanning out its empty envelope list leaves every subscriber's queue
untouched), and answers a success acknowledgement. -/
theorem full_sync_replaces_verbatim (st : ServerState) (request : FullSyncRequest) :
    (full_sync st request).state.canvas_data = request.canvasJSON
    ∧ (full_sync st request).state.sequence_id = st.sequence_id
    ∧ (full_sync st request).broadcast_events = []
    ∧ (∀ clients : List Subscriber,
        broadcast_all clients (full_sync st request).broadcast_events = clients)
    ∧ (full_sync st request).success = true :=
  ⟨rfl, rfl, rfl, fun _ => rfl, rfl⟩

/-! ### The identity invariant across all operations -/

theorem countP_replaceFirst_le (canvas : List CanvasObject) (e : CanvasObject)
    (p : CanvasObject → Bool) (hp : p e = false) :
    (replaceFirst canvas e).countP p ≤ canvas.countP p := by
  induction canvas with
  | nil => simp [replaceFirst, List.countP_cons, hp]
  | cons o rest ih =>
    by_cases hm : (o.id == e.id) = true
    · simp only [replaceFirst, hm, if_true]
      rw [List.countP_cons_of_neg p rest (by rw [hp]; exact Bool.false_ne_true),
        List.countP_cons]
      exact Nat.le_add_right _ _
    · rw [Bool.not_eq_true] at hm
      simp only [replaceFirst, hm, Bool.false_eq_true, if_false]
      rw [List.countP_cons, List.countP_cons]
      exact Nat.add_le_add_right ih _

theorem countP_replaceFirst_eq_one (canvas : List CanvasObject) (e : CanvasObject)
    (h : canvas.countP (fun o => o.id == e.id) ≤ 1) :
    (replaceFirst canvas e).countP (fun o => o.id == e.id) = 1 := by
  rw [List.countP_eq_length_filter, filter_replaceFirst canvas e h]
  rfl

/-- Merging any object preserves the identity invariant. -/
theorem merge_preserves_inv (canvas : List CanvasObject) (e : CanvasObject)
    (h : AtMostOnePerId canvas) :
    AtMostOnePerId (merge_event_to_canvas canvas e) := by
  by_cases hf : isFalsyId e.id = true
  · simpa [merge_event_to_canvas, hf] using h
  · rw [Bool.not_eq_true] at hf
    rw [merge_eq_replaceFirst _ _ hf]
    intro oid hoid
    by_cases heq : oid = e.id
    · subst heq
      rw [countP_replaceFirst_eq_one canvas e (h e.id hoid)]
    · calc (replaceFirst canvas e).countP (fun o => o.id == oid)
          ≤ canvas.countP (fun o => o.id == oid) := by
            refine countP_replaceFirst_le canvas e _ ?_
            rw [beq_eq_false_iff_ne]
            exact fun hc => heq hc.symm
      _ ≤ 1 := h oid hoid

/-- A list whose ids are pairwise distinct satisfies the identity
invariant. -/
theorem nodup_ids_inv (objects : List CanvasObject)
    (h : (objects.map CanvasObject.id).Nodup) : AtMostOnePerId objects := by
  induction objects with
  | nil =>
    intro oid _
    simp
  | cons o rest ih =>
    rw [List.map_cons, List.nodup_cons] at h
    intro oid hoid
    by_cases heq : o.id = oid
    · subst heq
      rw [List.countP_cons_of_pos _ rest (beq_self_eq_true o.id)]
      have hzero : rest.countP (fun x => x.id == o.id) = 0 := by
        rw [List.countP_eq_zero]
        intro x hx hbeq
        rw [beq_iff_eq] at hbeq
        refine h.1 ?_
        rw [← hbeq]
        exact List.mem_map_of_mem CanvasObject.id hx
      omega
    · rw [List.countP_cons_of_neg _ rest (by rw [beq_iff_eq]; exact heq)]
      exact ih h.2 oid hoid

/-- The ingest loop preserves the identity invariant. -/
theorem pushFold_preserves_inv (events : List SyncEventItem) :
    ∀ st : ServerState, ∀ acc : List EventEnvelope,
      AtMostOnePerId st.canvas_data →
      AtMostOnePerId (events.foldl pushStep (st, acc)).1.canvas_data := by
  induction events with
  | nil =>
    intro st acc h
    exact h
  | cons e es ih =>
    intro st acc h
    exact ih ⟨st.sequence_id + 1, merge_event_to_canvas st.canvas_data e.event_data⟩
      (acc ++ [⟨st.sequence_id + 1, e.event_type, e.event_data⟩])
      (merge_preserves_inv st.canvas_data e.event_data h)

/-- Every endpoint preserves the identity invariant, provided any
full-sync input has pairwise distinct ids. -/
theorem applyOp_preserves_inv (st : ServerState) (op : Op)
    (hok : OpDistinctIds op) (h : AtMostOnePerId st.canvas_data) :
    AtMostOnePerId (applyOp st op).canvas_data := by
  cases op with
  | pushOp events => exact pushFold_preserves_inv events st [] h
  | fullSyncOp request => exact nodup_ids_inv request.canvasJSON hok
  | resetOp =>
    intro oid _
    simp [applyOp, reset_data]

/-- C4: from the empty initial state, every sequence of push,
full-sync and reset calls — with pairwise-distinct ids in each
full-sync input — keeps at most one canvas object per non-empty id. -/
theorem reachable_states_unique_ids (ops : List Op)
    (h : ∀ op ∈ ops, OpDistinctIds op) :
    AtMostOnePerId (ops.foldl applyOp initialState).canvas_data := by
  have general : ∀ l : List Op, ∀ st : ServerState,
      (∀ op ∈ l, OpDistinctIds op) → AtMostOnePerId st.canvas_data →
      AtMostOnePerId (l.foldl applyOp st).canvas_data := by
    intro l
    induction l with
    | nil =>
      intro st _ hst
      exact hst
    | cons op rest ih =>
      intro st hops hst
      exact ih (applyOp st op)
        (fun o ho => hops o (List.mem_cons_of_mem op ho))
        (applyOp_preserves_inv st op (hops op (List.mem_cons_self op rest)) hst)
  refine general ops initialState h ?_
  intro oid _
  simp [initialState]

/-- Witness for C4: a push, a full sync with distinct ids, and a
second push starting from the initial state leave at most one object
per id. -/
theorem reachable_states_unique_ids_witness :
    AtMostOnePerId (([Op.pushOp [⟨"client:change", ⟨some "a1", [("x", "1")]⟩⟩],
        Op.fullSyncOp ⟨"c9", [⟨some "a1", []⟩, ⟨some "b2", []⟩]⟩,
        Op.pushOp [⟨"client:change", ⟨some "a1", [("x", "2")]⟩⟩]] : List Op).foldl
      applyOp initialState).canvas_data :=
  reachable_states_unique_ids
    [Op.pushOp [⟨"client:change", ⟨some "a1", [("x", "1")]⟩⟩],
     Op.fullSyncOp ⟨"c9", [⟨some "a1", []⟩, ⟨some "b2", []⟩]⟩,
     Op.pushOp [⟨"client:change", ⟨some "a1", [("x", "2")]⟩⟩]]
    (by
      rw [List.forall_mem_cons, List.forall_mem_cons, List.forall_mem_cons]
      exact ⟨trivial, show ([some "a1", some "b2"] : List (Option String)).Nodup by decide,
        trivial, by simp⟩)

/-! ### Broadcast failure isolation -/

/-- The effect of one `broadcast` iteration on one subscriber: the
envelope lands at the back of a live queue; a broken subscriber is
left exactly as it was. -/
def deliverTo (event : EventEnvelope) (c : Subscriber) : Subscriber :=
  match queuePut c.queue event with
  | .ok q => ⟨c.client_id, q⟩
  | .error _ => c

theorem broadcastStep_fst (event : EventEnvelope) (acc : List Subscriber × Nat)
    (c : Subscriber) :
    (broadcastStep event acc c).1 = acc.1 ++ [deliverTo event c] := by
  cases hq : queuePut c.queue event with
  | ok q => simp [broadcastStep, deliverTo, hq]
  | error msg => simp [broadcastStep, deliverTo, hq]

theorem broadcast_fst (clients : List Subscriber) (event : EventEnvelope) :
    (broadcast clients event).1 = clients.map (deliverTo event) := by
  suffices hgen : ∀ acc : List Subscriber × Nat,
      (clients.foldl (broadcastStep event) acc).1
        = acc.1 ++ clients.map (deliverTo event) by
    simpa using hgen ([], 0)
  induction clients with
  | nil =>
    intro acc
    simp
  | cons c rest ih =>
    intro acc
    rw [List.foldl_cons, List.map_cons, ih (broadcastStep event acc c),
      broadcastStep_fst]
    simp

theorem deliverTo_client_id (event : EventEnvelope) (c : Subscriber) :
    (deliverTo event c).client_id = c.client_id := by
  cases hq : queuePut c.queue event with
  | ok q => simp [deliverTo, hq]
  | error msg => simp [deliverTo, hq]

theorem deliverTo_active (event : EventEnvelope) (cid : String)
    (ms : List EventEnvelope) :
    deliverTo event ⟨cid, .active ms⟩ = ⟨cid, .active (ms ++ [event])⟩ := rfl

theorem deliverTo_broken (event : EventEnvelope) (cid : String) :
    deliverTo event ⟨cid, .broken⟩ = ⟨cid, .broken⟩ := rfl

/-- Fan-out never changes the registry's membership: the connection
ids after broadcasting any envelope stream are exactly those before. -/
theorem broadcast_all_ids (events : List EventEnvelope) :
    ∀ clients : List Subscriber,
      (broadcast_all clients events).map Subscriber.client_id
        = clients.map Subscriber.client_id := by
  induction events with
  | nil =>
    intro clients
    rfl
  | cons e es ih =>
    intro clients
    show (broadcast_all (broadcast clients e).1 es).map Subscriber.client_id = _
    rw [ih, broadcast_fst, List.map_map]
    exact List.map_congr_left (fun c _ => deliverTo_client_id e c)

/-- A live subscriber receives every envelope of the stream, in order,
whatever happens to the other subscribers. -/
theorem broadcast_all_active (events : List EventEnvelope) :
    ∀ clients : List Subscriber, ∀ cid : String, ∀ ms : List EventEnvelope,
      Subscriber.mk cid (.active ms) ∈ clients →
      Subscriber.mk cid (.active (ms ++ events)) ∈ broadcast_all clients events := by
  induction events with
  | nil =>
    intro clients cid ms hmem
    simpa using hmem
  | cons e es ih =>
    intro clients cid ms hmem
    show Subscriber.mk cid (.active (ms ++ e :: es))
        ∈ broadcast_all (broadcast clients e).1 es
    have hstep : Subscriber.mk cid (.active (ms ++ [e])) ∈ (broadcast clients e).1 := by
      rw [broadcast_fst]
      have h0 := List.mem_map_of_mem (deliverTo e) hmem
      rw [deliverTo_active] at h0
      exact h0
    have := ih (broadcast clients e).1 cid (ms ++ [e]) hstep
    simpa [List.append_assoc] using this

/-- A broken subscriber is left in the registry untouched by the whole
fan-out. -/
theorem broadcast_all_broken (events : List EventEnvelope) :
    ∀ clients : List Subscriber, ∀ did : String,
      Subscriber.mk did .broken ∈ clients →
      Subscriber.mk did .broken ∈ broadcast_all clients events := by
  induction events with
  | nil =>
    intro clients did hmem
    exact hmem
  | cons e es ih =>
    intro clients did hmem
    show Subscriber.mk did .broken ∈ broadcast_all (broadcast clients e).1 es
    refine ih (broadcast clients e).1 did ?_
    rw [broadcast_fst]
    have h0 := List.mem_map_of_mem (deliverTo e) hmem
    rw [deliverTo_broken] at h0
    exact h0

/-- Input on which the C8 claim fails: subscriber `A` has a broken
queue, subscriber `B` a live empty one. -/
def exClients : List Subscriber := [⟨"A", .broken⟩, ⟨"B", .active []⟩]

/-- The envelope being published in the C8 counterexample. -/
def exEnvelope : EventEnvelope := ⟨1, "client:change", ⟨some "a1", []⟩⟩

/-- C8 counterexample: publishing to `A` (broken queue) and `B` (live)
delivers to `B` and swallows `A`'s failure, but `A` is NOT
unregistered: it is still in the registry after `broadcast`, so the
claim's "that subscriber is unregistered" is false on this input. -/
theorem broadcast_keeps_failed_subscriber :
    (broadcast exClients exEnvelope).1
        = [⟨"A", .broken⟩, ⟨"B", .active [exEnvelope]⟩]
    ∧ ¬ (∀ c ∈ (broadcast exClients exEnvelope).1, c.client_id ≠ "A") := by
  decide

/-- C8 (amended): a delivery failure during publish is isolated — it
never reaches the caller (`broadcast` returns normally with its
registry and count), never prevents delivery of the envelope stream to
any live subscriber, and never changes which connection ids are
registered; the failed subscriber remains registered, and is
unregistered only by its own stream handler's cleanup, not by
`broadcast`. -/
theorem broadcast_isolates_failures (clients : List Subscriber)
    (events : List EventEnvelope) (cid did : String) (ms : List EventEnvelope) :
    ((broadcast_all clients events).map Subscriber.client_id
        = clients.map Subscriber.client_id)
    ∧ (Subscriber.mk cid (.active ms) ∈ clients →
        Subscriber.mk cid (.active (ms ++ events)) ∈ broadcast_all clients events)
    ∧ (Subscriber.mk did .broken ∈ clients →
        Subscriber.mk did .broken ∈ broadcast_all clients events) :=
  ⟨broadcast_all_ids events clients,
   fun h => broadcast_all_active events clients cid ms h,
   fun h => broadcast_all_broken events clients did h⟩

/-- Witness for amended C8: with `A` broken and `B` live, broadcasting
two envelopes keeps both registered and delivers both envelopes to `B`
in order. -/
theorem broadcast_isolates_failures_witness :
    ((broadcast_all exClients [exEnvelope, ⟨2, "client:change", ⟨some "b2", []⟩⟩]).map
        Subscriber.client_id = ["A", "B"])
    ∧ Subscriber.mk "B" (.active [exEnvelope, ⟨2, "client:change", ⟨some "b2", []⟩⟩])
        ∈ broadcast_all exClients [exEnvelope, ⟨2, "client:change", ⟨some "b2", []⟩⟩]
    ∧ Subscriber.mk "A" .broken
        ∈ broadcast_all exClients [exEnvelope, ⟨2, "client:change", ⟨some "b2", []⟩⟩] := by
  obtain ⟨h1, h2, h3⟩ := broadcast_isolates_failures exClients
    [exEnvelope, ⟨2, "client:change", ⟨some "b2", []⟩⟩] "B" "A" []
  exact ⟨h1, by simpa using h2 (by decide), h3 (by decide)⟩

end SyncServer
